import Mathlib

/-!
Verification of the lenoxbot trading core: `PositionManager`
(src/utils/position_manager.py), `RiskManager` (src/services/risk_management.py)
and the position-management sweep of `TradingBot` (src/bot.py), shallowly
embedded in Lean.

Modelling conventions:
* Python floats are modelled as rationals (`ℚ`); timestamps (both
  `datetime.now().timestamp()` and the ISO string from
  `Helpers.get_current_timestamp()`) are modelled as a single rational clock
  value `now` passed to every operation that reads the clock.
* The position dictionary `self.active_positions` (a Python dict keyed by the
  position-id string) is an association list with first-match lookup and
  in-place replacement on key collision and append on a new key, which is
  exactly CPython dict semantics (insertion order preserved, assignment to an
  existing key keeps its slot).
* The id string `f"{token}_{timestamp}"` is determined injectively by the pair
  `(token, timestamp)` (the decimal rendering of the timestamp contains no
  underscore, so the last underscore separates the two components); we model
  the id as that pair.
* Optional fields (`stop_loss`, `take_profit`, and the `exit_price` /
  `exit_time` keys that are only added to the dict by `close_position`) are
  `Option ℚ`.
* The Python builtin `round(x, 2)` is bankers rounding at two decimal places.
-/

namespace Lenoxbot

/-- Python `round` to an integer: round half to even (bankers rounding). -/
def roundHalfEven (x : ℚ) : ℤ :=
  if x - ⌊x⌋ < 1/2 then ⌊x⌋
  else if x - ⌊x⌋ > 1/2 then ⌊x⌋ + 1
  else if ⌊x⌋ % 2 = 0 then ⌊x⌋ else ⌊x⌋ + 1

/-- Python `round(x, 2)`. -/
def round2 (x : ℚ) : ℚ := (roundHalfEven (x * 100) : ℚ) / 100

/-- A position record, with the fields written by
`PositionManager.open_position` (src/utils/position_manager.py, lines 53-84);
`exit_price` and `exit_time` are the keys added later by `close_position`,
modelled as `Option` fields that start out `none`. -/
structure Position where
  token : String
  entry_price : ℚ
  amount : ℚ
  stop_loss : Option ℚ
  take_profit : Option ℚ
  status : String
  entry_time : ℚ
  last_update : ℚ
  exit_price : Option ℚ
  exit_time : Option ℚ
  realized_pnl : ℚ
  deriving DecidableEq, Repr

/-- A position id: the pair (token, timestamp) behind `f"{token}_{timestamp}"`. -/
abbrev PosId := String × ℚ

/-- The `active_positions` dict: an insertion-ordered association list. -/
abbrev Store := List (PosId × Position)

/-- Python dict read `d.get(k)` / `d[k]`: first match. -/
def dictLookup : Store → PosId → Option Position
  | [], _ => none
  | (k, v) :: rest, k' => if k = k' then some v else dictLookup rest k'

/-- Python dict write `d[k] = v`: replace in place if the key is present,
append otherwise. -/
def dictInsert : Store → PosId → Position → Store
  | [], k, v => [(k, v)]
  | (k', v') :: rest, k, v =>
      if k' = k then (k, v) :: rest else (k', v') :: dictInsert rest k v

/-- Embeds `PositionManager._calculate_pnl` (lines 140-152):
`round((current_price - entry_price) * amount, 2)`. -/
def calculate_pnl (position : Position) (current_price : ℚ) : ℚ :=
  round2 ((current_price - position.entry_price) * position.amount)

/-- Embeds the `position = {...}` dict literal of
`PositionManager.open_position` (lines 67-77). -/
def openRecord (token : String) (entry_price amount : ℚ)
    (stop_loss take_profit : Option ℚ) (now : ℚ) : Position :=
  { token := token, entry_price := entry_price, amount := amount,
    stop_loss := stop_loss, take_profit := take_profit, status := "open",
    entry_time := now, last_update := now,
    exit_price := none, exit_time := none, realized_pnl := 0 }

/-- Embeds `PositionManager.open_position` (lines 53-84). `now` models the clock
(`datetime.now().timestamp()` for the id, `get_current_timestamp()` for the
time fields). Returns the updated store and the new position id. -/
def open_position (store : Store) (token : String) (entry_price amount : ℚ)
    (stop_loss take_profit : Option ℚ) (now : ℚ) : Store × PosId :=
  let position_id : PosId := (token, now)
  (dictInsert store position_id
    (openRecord token entry_price amount stop_loss take_profit now),
   position_id)

/-- Embeds the four mutation lines of `PositionManager.close_position`
(lines 101-104): set `exit_price`, `exit_time`, `status = "closed"` and
`realized_pnl`. -/
def closeRecord (position : Position) (exit_price now : ℚ) : Position :=
  { position with
    exit_price := some exit_price
    exit_time := some now
    status := "closed"
    realized_pnl := calculate_pnl position exit_price }

/-- Embeds `PositionManager.close_position` (lines 86-109). The guard
`if not position or position["status"] != "open"` returns `None` without any
mutation (a non-empty dict is truthy, so `not position` is exactly the
missing-key case here). -/
def close_position (store : Store) (position_id : PosId) (exit_price : ℚ)
    (now : ℚ) : Store × Option Position :=
  match dictLookup store position_id with
  | none => (store, none)
  | some position =>
    if position.status ≠ "open" then (store, none)
    else
      (dictInsert store position_id (closeRecord position exit_price now),
       some (closeRecord position exit_price now))

/-- Embeds `PositionManager.update_position` (lines 111-138): mutates only the
supplied optional thresholds on an open position and stamps `last_update`. -/
def update_position (store : Store) (position_id : PosId) (current_price : ℚ)
    (stop_loss take_profit : Option ℚ) (now : ℚ) : Store × Bool :=
  match dictLookup store position_id with
  | none => (store, false)
  | some position =>
    if position.status ≠ "open" then (store, false)
    else
      let p1 := match stop_loss with
        | none => position
        | some sl => { position with stop_loss := some sl }
      let p2 := match take_profit with
        | none => p1
        | some tp => { p1 with take_profit := some tp }
      (dictInsert store position_id { p2 with last_update := now }, true)

/-- Embeds `PositionManager.get_active_positions` (lines 154-162): the records with
`status == "open"`, in insertion order. -/
def get_active_positions (store : Store) : List Position :=
  (store.filter (fun e => e.2.status == "open")).map (fun e => e.2)

/-- Embeds `PositionManager.clear_positions` (lines 164-169). -/
def clear_positions (_ : Store) : Store := []

/-- The first disjunct of the exit test in `check_position_exits`
(line 184): `position["stop_loss"] and current_price <= position["stop_loss"]`.
Python truthiness makes both `None` and `0` falsy. -/
def slTriggered (position : Position) (current_price : ℚ) : Bool :=
  match position.stop_loss with
  | none => false
  | some sl => decide (sl ≠ 0) && decide (current_price ≤ sl)

/-- The second disjunct of the exit test in `check_position_exits`
(line 185): `position["take_profit"] and current_price >= position["take_profit"]`. -/
def tpTriggered (position : Position) (current_price : ℚ) : Bool :=
  match position.take_profit with
  | none => false
  | some tp => decide (tp ≠ 0) && decide (current_price ≥ tp)

/-- Embeds `PositionManager.check_position_exits` (lines 171-186): iterates over ALL
entries of `active_positions` (there is no status test in the source) and
collects, in insertion order, the ids whose thresholds are crossed. -/
def check_position_exits (store : Store) (current_price : ℚ) : List PosId :=
  (store.filter
    (fun e => slTriggered e.2 current_price || tpTriggered e.2 current_price)).map
    (fun e => e.1)

/-- Embeds the trading configuration dict `self.config` of `RiskManager`,
restricted to the keys the embedded operations read. -/
structure RiskConfig where
  account_size : ℚ
  risk_per_trade : ℚ
  max_position_size : ℚ
  deriving DecidableEq, Repr

/-- Embeds `RiskManager.calculate_position_size` (src/services/risk_management.py,
lines 57-80). The `entry_price = 0` branch models the `ZeroDivisionError`
raised by `max_position_size / entry_price`, which the surrounding
`try/except` turns into a `0` return. -/
def calculate_position_size (cfg : RiskConfig) (entry_price stop_loss : ℚ) : ℚ :=
  let risk_per_trade := cfg.account_size * (cfg.risk_per_trade / 100)
  let risk_per_unit := |entry_price - stop_loss|
  if risk_per_unit = 0 then 0
  else if entry_price = 0 then 0
  else min (risk_per_trade / risk_per_unit) (cfg.max_position_size / entry_price)

/-- Embeds `RiskManager.check_stop_loss` (lines 82-97):
`if stop_loss and current_price <= stop_loss` (truthiness: `None` and `0`
are falsy). -/
def check_stop_loss (position : Position) (current_price : ℚ) : Bool :=
  match position.stop_loss with
  | none => false
  | some sl => decide (sl ≠ 0) && decide (current_price ≤ sl)

/-- Embeds `RiskManager.check_take_profit` (lines 99-114). -/
def check_take_profit (position : Position) (current_price : ℚ) : Bool :=
  match position.take_profit with
  | none => false
  | some tp => decide (tp ≠ 0) && decide (current_price ≥ tp)

/-- Embeds the `RiskManager.daily_stats` dict. -/
structure DailyStats where
  total_trades : ℕ
  winning_trades : ℕ
  losing_trades : ℕ
  total_pnl : ℚ
  max_drawdown : ℚ
  last_reset : ℚ
  deriving DecidableEq, Repr

/-- The dict literal assigned to `self.daily_stats` in `RiskManager.__init__`
(lines 22-29) and in `reset_daily_stats`. -/
def init_daily_stats (now : ℚ) : DailyStats :=
  { total_trades := 0, winning_trades := 0, losing_trades := 0,
    total_pnl := 0, max_drawdown := 0, last_reset := now }

/-- Embeds `RiskManager.reset_daily_stats` (lines 138-150). -/
def reset_daily_stats (now : ℚ) : DailyStats := init_daily_stats now

/-- Embeds `RiskManager.update_trade_stats` (lines 116-136) — the spec calls this
`record_trade_result`. Counters first, then `total_pnl += pnl`, then the
drawdown update, which runs only when `pnl < 0`. -/
def update_trade_stats (stats : DailyStats) (pnl : ℚ) : DailyStats :=
  let s1 := { stats with total_trades := stats.total_trades + 1,
                         total_pnl := stats.total_pnl + pnl }
  let s2 := if pnl > 0 then { s1 with winning_trades := s1.winning_trades + 1 }
            else { s1 with losing_trades := s1.losing_trades + 1 }
  if pnl < 0 then { s2 with max_drawdown := min s2.max_drawdown s2.total_pnl }
  else s2

/-- The stats after a sequence of `update_trade_stats` calls starting from a
fresh `daily_stats`. -/
def record_trades (now : ℚ) (pnls : List ℚ) : DailyStats :=
  pnls.foldl update_trade_stats (init_daily_stats now)

/-- The dict returned by `RiskManager.get_risk_metrics` (lines 152-169). -/
structure RiskMetrics where
  win_rate : ℚ
  total_pnl : ℚ
  max_drawdown : ℚ
  total_trades : ℕ
  risk_per_trade : ℚ
  account_size : ℚ
  deriving DecidableEq, Repr

/-- Embeds `RiskManager.get_risk_metrics` (lines 152-169): the win rate is
`(winning_trades / total_trades) * 100 if total_trades > 0 else 0`, and the
three rational entries are passed through `round(·, 2)`. -/
def get_risk_metrics (cfg : RiskConfig) (stats : DailyStats) : RiskMetrics :=
  let win_rate : ℚ :=
    if stats.total_trades > 0 then
      ((stats.winning_trades : ℚ) / (stats.total_trades : ℚ)) * 100
    else 0
  { win_rate := round2 win_rate, total_pnl := round2 stats.total_pnl,
    max_drawdown := round2 stats.max_drawdown,
    total_trades := stats.total_trades,
    risk_per_trade := cfg.risk_per_trade, account_size := cfg.account_size }

/-- A Python value stored in a position dict. -/
inductive PyVal where
  | num : ℚ → PyVal
  | str : String → PyVal
  | pynone : PyVal
  deriving DecidableEq, Repr

/-- An optional price field as stored in the dict (`None` when unset). -/
def optVal : Option ℚ → PyVal
  | none => PyVal.pynone
  | some v => PyVal.num v

/-- The key/value pairs of the position dict: the nine keys written by
`open_position`, plus `exit_price` / `exit_time` once `close_position` has
added them. -/
def Position.fields (p : Position) : List (String × PyVal) :=
  [("token", PyVal.str p.token), ("entry_price", PyVal.num p.entry_price),
   ("amount", PyVal.num p.amount), ("stop_loss", optVal p.stop_loss),
   ("take_profit", optVal p.take_profit), ("status", PyVal.str p.status),
   ("entry_time", PyVal.num p.entry_time),
   ("last_update", PyVal.num p.last_update),
   ("realized_pnl", PyVal.num p.realized_pnl)]
  ++ (match p.exit_price with | none => [] | some v => [("exit_price", PyVal.num v)])
  ++ (match p.exit_time with | none => [] | some v => [("exit_time", PyVal.num v)])

/-- Python subscript `position[key]`: `KeyError` when the key is absent. -/
def Position.getItem (p : Position) (key : String) : Except String PyVal :=
  match p.fields.find? (fun e => e.1 == key) with
  | some e => Except.ok e.2
  | none => Except.error ("KeyError: " ++ key)

/-- The inner part of the sweep in `TradingBot.manage_positions`
(src/bot.py, lines 122-125): `check_position_exits(current_price)` over the
whole store, then `close_position(exit_id, current_price)` for each match. -/
def sweepExits (store : Store) (current_price now : ℚ) : Store :=
  (check_position_exits store current_price).foldl
    (fun s exit_id => (close_position s exit_id current_price now).1) store

/-- The `for position in positions` loop of `TradingBot.manage_positions`
(src/bot.py, lines 110-125). `priceOf` models
`Jupiter.get_token_price`, which catches its own exceptions and returns
`None` on failure. `position["token_address"]` is a plain subscript, so a
missing key raises `KeyError` out of the loop; `if not current_price` skips
on `None` and on a `0` price (both falsy). -/
def managePositionsLoop (priceOf : String → Option ℚ) (now : ℚ) :
    List Position → Store → Except String Store
  | [], st => Except.ok st
  | position :: rest, st =>
    match position.getItem "token_address" with
    | Except.error e => Except.error e
    | Except.ok v =>
      match v with
      | PyVal.str token_address =>
        match priceOf token_address with
        | none => managePositionsLoop priceOf now rest st
        | some current_price =>
          if current_price = 0 then managePositionsLoop priceOf now rest st
          else managePositionsLoop priceOf now rest (sweepExits st current_price now)
      | _ => Except.error "TypeError"

/-- Embeds `TradingBot.manage_positions` (src/bot.py, lines 110-125): snapshot the
open positions, then run the sweep loop. -/
def manage_positions (priceOf : String → Option ℚ) (now : ℚ) (store : Store) :
    Except String Store :=
  managePositionsLoop priceOf now (get_active_positions store) store

/-- Spec-side helper: the cumulative sums `c + p₁, c + p₁ + p₂, …` of a pnl
sequence, starting from the running total `c`. -/
def cumulativeSums (c : ℚ) : List ℚ → List ℚ
  | [] => []
  | p :: rest => (c + p) :: cumulativeSums (c + p) rest

/-
Helper lemmas about the dict model.
-/

lemma dictLookup_dictInsert_self (store : Store) (k : PosId) (v : Position) :
    dictLookup (dictInsert store k v) k = some v := by
  induction store with
  | nil => simp [dictInsert, dictLookup]
  | cons e rest ih =>
    obtain ⟨k', v'⟩ := e
    by_cases h : k' = k
    · simp [dictInsert, dictLookup, h]
    · simp [dictInsert, dictLookup, h, ih]

lemma dictLookup_dictInsert_ne (store : Store) (k k' : PosId) (v : Position)
    (h : k ≠ k') : dictLookup (dictInsert store k v) k' = dictLookup store k' := by
  induction store with
  | nil => simp [dictInsert, dictLookup, h]
  | cons e rest ih =>
    obtain ⟨k₀, v₀⟩ := e
    by_cases h₀ : k₀ = k
    · subst h₀
      simp [dictInsert, dictLookup, h]
    · simp [dictInsert, dictLookup, h₀, ih]

lemma dictInsert_of_not_mem (store : Store) (k : PosId) (v : Position)
    (h : k ∉ store.map Prod.fst) : dictInsert store k v = store ++ [(k, v)] := by
  induction store with
  | nil => simp [dictInsert]
  | cons e rest ih =>
    obtain ⟨k₀, v₀⟩ := e
    simp only [List.map_cons, List.mem_cons] at h
    push_neg at h
    have hne : k₀ ≠ k := fun hc => h.1 hc.symm
    simp [dictInsert, hne, ih h.2]

lemma close_position_of_fail (store : Store) (id : PosId) (p now : ℚ)
    (h : ∀ q, dictLookup store id = some q → q.status ≠ "open") :
    close_position store id p now = (store, none) := by
  unfold close_position
  cases hl : dictLookup store id with
  | none => rfl
  | some q => exact if_pos (h q hl)

lemma close_position_of_open (store : Store) (id : PosId) (p now : ℚ)
    (q : Position) (hl : dictLookup store id = some q)
    (hq : q.status = "open") :
    close_position store id p now
      = (dictInsert store id (closeRecord q p now),
         some (closeRecord q p now)) := by
  unfold close_position
  rw [hl]
  exact if_neg (by rw [hq]; exact fun hc => hc rfl)

/-
Helper lemmas about the exit predicates.
-/

lemma slTriggered_iff (position : Position) (current_price : ℚ) :
    slTriggered position current_price = true ↔
      ∃ sl, position.stop_loss = some sl ∧ sl ≠ 0 ∧ current_price ≤ sl := by
  unfold slTriggered
  cases h : position.stop_loss with
  | none => simp
  | some sl => simp [h]

lemma tpTriggered_iff (position : Position) (current_price : ℚ) :
    tpTriggered position current_price = true ↔
      ∃ tp, position.take_profit = some tp ∧ tp ≠ 0 ∧ current_price ≥ tp := by
  unfold tpTriggered
  cases h : position.take_profit with
  | none => simp
  | some tp => simp [h]

/-- C1 counterexample: open a position with `stop_loss = 5`, close it, and
query `check_position_exits` at price `3`. The id of the CLOSED position is
returned even though the claim says a CLOSED position is never included —
the source loop has no status test. -/
theorem check_exits_includes_closed_position :
    check_position_exits
        ((close_position ((open_position [] "tok" 10 1 (some 5) none 0).1)
          ("tok", 0) 20 1).1) 3
      = [("tok", 0)] ∧
    (dictLookup
        ((close_position ((open_position [] "tok" 10 1 (some 5) none 0).1)
          ("tok", 0) 20 1).1) ("tok", 0)).map Position.status
      = some "closed" :=
  ⟨rfl, rfl⟩

/-- C1 (amended): for every store and price, `check_position_exits` returns
exactly the ids of the entries — regardless of status — whose thresholds are
crossed: an id is included iff its record has a stop loss that is set and
nonzero with `price ≤ stop_loss`, or a take profit that is set and nonzero
with `price ≥ take_profit`. -/
theorem check_position_exits_mem_iff (store : Store) (current_price : ℚ)
    (id : PosId) :
    id ∈ check_position_exits store current_price ↔
      ∃ position, (id, position) ∈ store ∧
        ((∃ sl, position.stop_loss = some sl ∧ sl ≠ 0 ∧ current_price ≤ sl) ∨
         (∃ tp, position.take_profit = some tp ∧ tp ≠ 0 ∧ current_price ≥ tp)) := by
  unfold check_position_exits
  simp only [List.mem_map, List.mem_filter]
  constructor
  · rintro ⟨⟨i, position⟩, ⟨hmem, hpred⟩, hfst⟩
    refine ⟨position, ?_, ?_⟩
    · simpa [← hfst] using hmem
    · rcases Bool.or_eq_true_iff.mp hpred with h | h
      · exact Or.inl ((slTriggered_iff _ _).mp h)
      · exact Or.inr ((tpTriggered_iff _ _).mp h)
  · rintro ⟨position, hmem, hcond⟩
    refine ⟨(id, position), ⟨hmem, ?_⟩, rfl⟩
    rcases hcond with h | h
    · exact Bool.or_eq_true_iff.mpr (Or.inl ((slTriggered_iff _ _).mpr h))
    · exact Bool.or_eq_true_iff.mpr (Or.inr ((tpTriggered_iff _ _).mpr h))

/-- C10: a threshold stored as `0` is treated by every exit check exactly like
an unset threshold — `check_stop_loss`, `check_take_profit` and
`check_position_exits` never select a position on account of a zero
threshold, even at prices where the raw comparison would hold. -/
theorem zero_threshold_treated_as_unset (position : Position) (current_price : ℚ)
    (hsl : position.stop_loss = none ∨ position.stop_loss = some 0)
    (htp : position.take_profit = none ∨ position.take_profit = some 0) :
    check_stop_loss position current_price = false ∧
    check_take_profit position current_price = false ∧
    ∀ id : PosId, check_position_exits [(id, position)] current_price = [] := by
  refine ⟨?_, ?_, ?_⟩
  · rcases hsl with h | h <;> simp [check_stop_loss, h]
  · rcases htp with h | h <;> simp [check_take_profit, h]
  · intro id
    rcases hsl with h1 | h1 <;> rcases htp with h2 | h2 <;>
      simp [check_position_exits, slTriggered, tpTriggered, h1, h2]

/-- Concrete position whose two thresholds are both set to `0`. -/
def zeroThresholdPos : Position :=
  { token := "z", entry_price := 1, amount := 1, stop_loss := some 0,
    take_profit := some 0, status := "open", entry_time := 0, last_update := 0,
    exit_price := none, exit_time := none, realized_pnl := 0 }

/-- C10 witness: at price `0` both raw comparisons (`0 ≤ 0`, `0 ≥ 0`) hold,
yet nothing triggers. -/
theorem zero_threshold_treated_as_unset_witness :
    check_stop_loss zeroThresholdPos 0 = false ∧
    check_take_profit zeroThresholdPos 0 = false ∧
    check_position_exits [(("z", 0), zeroThresholdPos)] 0 = [] := by
  have h := zero_threshold_treated_as_unset zeroThresholdPos 0
    (Or.inr rfl) (Or.inr rfl)
  exact ⟨h.1, h.2.1, h.2.2 ("z", 0)⟩

/-- C2 counterexample: close a position with `entry_price = 1`, `amount = 1`
at `exit_price = 1.001`. The exact pnl is `0.001`, but the stored
`realized_pnl` is `round(0.001, 2) = 0` — the source rounds to two decimal
places, so the stored value does not equal
`(exit_price − entry_price) × amount` exactly. -/
theorem realized_pnl_is_rounded :
    ((close_position ((open_position [] "tok" 1 1 none none 0).1)
        ("tok", 0) (1001/1000) 1).2.map Position.realized_pnl) = some 0 ∧
    ((1001/1000 : ℚ) - 1) * 1 ≠ 0 := by
  constructor
  · simp only [open_position, openRecord, dictInsert, close_position,
      dictLookup, closeRecord, calculate_pnl]
    norm_num [round2, roundHalfEven]
  · norm_num

/-- C2 (amended): a successful `close_position` stores
`realized_pnl = round((exit_price − entry_price) × amount, 2)`, computed at
the moment of close, and a record whose status is CLOSED is never changed
again by `close_position`, `update_position`, or by `open_position` under a
fresh id — only `clear_positions` removes it. -/
theorem closed_positions_immutable (store : Store) (k : PosId) (pos : Position)
    (hk : dictLookup store k = some pos) (hclosed : pos.status = "closed") :
    (∀ id p now, dictLookup (close_position store id p now).1 k = some pos) ∧
    (∀ id p sl tp now,
      dictLookup (update_position store id p sl tp now).1 k = some pos) ∧
    (∀ token e a sl tp ts, (token, ts) ≠ k →
      dictLookup (open_position store token e a sl tp ts).1 k = some pos) ∧
    (∀ id p now closed, (close_position store id p now).2 = some closed →
      closed.realized_pnl = round2 ((p - closed.entry_price) * closed.amount) ∧
      closed.status = "closed") := by
  have hopen : pos.status ≠ "open" := by rw [hclosed]; decide
  refine ⟨?_, ?_, ?_, ?_⟩
  · intro id p now
    unfold close_position
    cases h : dictLookup store id with
    | none => exact hk
    | some q =>
      by_cases hq : q.status ≠ "open"
      · simp only [if_pos hq]
        exact hk
      · simp only [if_neg hq]
        have hne : id ≠ k := by
          intro he
          subst he
          rw [hk] at h
          exact hq (Option.some.inj h ▸ hopen)
        rw [dictLookup_dictInsert_ne _ _ _ _ hne]
        exact hk
  · intro id p sl tp now
    unfold update_position
    cases h : dictLookup store id with
    | none => exact hk
    | some q =>
      by_cases hq : q.status ≠ "open"
      · simp only [if_pos hq]
        exact hk
      · simp only [if_neg hq]
        have hne : id ≠ k := by
          intro he
          subst he
          rw [hk] at h
          exact hq (Option.some.inj h ▸ hopen)
        rw [dictLookup_dictInsert_ne _ _ _ _ hne]
        exact hk
  · intro token e a sl tp ts hne
    unfold open_position
    simp only
    rw [dictLookup_dictInsert_ne _ _ _ _ hne]
    exact hk
  · intro id p now closed hres
    cases h : dictLookup store id with
    | none =>
      rw [close_position_of_fail store id p now (by rw [h]; intro q hq; cases hq)]
        at hres
      cases hres
    | some q =>
      by_cases hq : q.status = "open"
      · rw [close_position_of_open store id p now q h hq] at hres
        simp only [Option.some.injEq] at hres
        subst hres
        exact ⟨rfl, rfl⟩
      · rw [close_position_of_fail store id p now
          (by intro q' hq'; rw [h] at hq'; cases hq'; exact fun hc => hq hc)]
          at hres
        cases hres

/-- The store after opening one position and closing it at price `2`. -/
def closedDemoStore : Store :=
  (close_position ((open_position [] "t" 1 1 none none 0).1) ("t", 0) 2 1).1

/-- The record that `close_position` leaves in `closedDemoStore`. -/
def closedDemoRecord : Position :=
  { token := "t", entry_price := 1, amount := 1, stop_loss := none,
    take_profit := none, status := "closed", entry_time := 0, last_update := 0,
    exit_price := some 2, exit_time := some 1, realized_pnl := 1 }

/-- C2 witness: the demo record is closed, and a later `close_position` call
with a different id leaves it untouched. -/
theorem closed_positions_immutable_witness :
    dictLookup closedDemoStore ("t", 0) = some closedDemoRecord ∧
    closedDemoRecord.status = "closed" ∧
    dictLookup (close_position closedDemoStore ("x", 0) 5 2).1 ("t", 0)
      = some closedDemoRecord := by
  have hk : dictLookup closedDemoStore ("t", 0) = some closedDemoRecord := by
    simp only [closedDemoStore, open_position, openRecord, dictInsert,
      close_position, dictLookup, closeRecord, calculate_pnl, closedDemoRecord]
    norm_num [round2, roundHalfEven]
  exact ⟨hk, rfl,
    (closed_positions_immutable closedDemoStore ("t", 0) closedDemoRecord
      hk rfl).1 ("x", 0) 5 2⟩

/-- C6: `close_position` returns a not-found signal (`none`) and leaves the
whole store unchanged whenever the id is absent or the record is already
CLOSED; and a second `close_position` on the same id — whatever the first
call did — returns `none` and leaves the store exactly as the first call
left it. -/
theorem close_position_not_found (store : Store) (id : PosId)
    (p p' now now' : ℚ) :
    ((dictLookup store id = none ∨
        ∃ pos, dictLookup store id = some pos ∧ pos.status = "closed") →
      close_position store id p now = (store, none)) ∧
    close_position (close_position store id p now).1 id p' now'
      = ((close_position store id p now).1, none) := by
  constructor
  · intro h
    rcases h with h | ⟨pos, hpos, hst⟩
    · exact close_position_of_fail store id p now (by rw [h]; intro q hq; cases hq)
    · refine close_position_of_fail store id p now ?_
      intro q hq
      rw [hpos] at hq
      cases hq
      rw [hst]
      decide
  · cases h : dictLookup store id with
    | none =>
      have hfail : ∀ q, dictLookup store id = some q → q.status ≠ "open" := by
        rw [h]; intro q hq; cases hq
      rw [close_position_of_fail store id p now hfail]
      exact close_position_of_fail store id p' now' hfail
    | some q =>
      by_cases hq : q.status = "open"
      · rw [close_position_of_open store id p now q h hq]
        refine close_position_of_fail _ id p' now' ?_
        intro q' hq'
        rw [dictLookup_dictInsert_self] at hq'
        cases hq'
        exact (by decide : ("closed" : String) ≠ "open")
      · have hfail : ∀ q', dictLookup store id = some q' → q'.status ≠ "open" := by
          intro q' hq'
          rw [h] at hq'
          cases hq'
          exact fun hc => hq hc
        rw [close_position_of_fail store id p now hfail]
        exact close_position_of_fail store id p' now' hfail

/-- C6 witness: closing a position that was never opened. -/
theorem close_position_not_found_witness :
    close_position [] ("t", 0) 1 0 = ([], none) :=
  (close_position_not_found [] ("t", 0) 1 1 0 0).1 (Or.inl rfl)

/-
Field projections of one `update_trade_stats` step.
-/

lemma update_trade_stats_total_trades (s : DailyStats) (pnl : ℚ) :
    (update_trade_stats s pnl).total_trades = s.total_trades + 1 := by
  simp only [update_trade_stats]
  split_ifs <;> rfl

lemma update_trade_stats_winning (s : DailyStats) (pnl : ℚ) :
    (update_trade_stats s pnl).winning_trades
      = s.winning_trades + (if pnl > 0 then 1 else 0) := by
  simp only [update_trade_stats]
  split_ifs <;> rfl

lemma update_trade_stats_losing (s : DailyStats) (pnl : ℚ) :
    (update_trade_stats s pnl).losing_trades
      = s.losing_trades + (if pnl > 0 then 0 else 1) := by
  simp only [update_trade_stats]
  split_ifs <;> rfl

lemma update_trade_stats_total_pnl (s : DailyStats) (pnl : ℚ) :
    (update_trade_stats s pnl).total_pnl = s.total_pnl + pnl := by
  simp only [update_trade_stats]
  split_ifs <;> rfl

lemma update_trade_stats_max_drawdown (s : DailyStats) (pnl : ℚ) :
    (update_trade_stats s pnl).max_drawdown
      = if pnl < 0 then min s.max_drawdown (s.total_pnl + pnl)
        else s.max_drawdown := by
  simp only [update_trade_stats]
  split_ifs <;> rfl

/-- The drawdown invariant: the stored minimum never exceeds the running
total, and folding `update_trade_stats` computes the running minimum of the
cumulative sums. -/
lemma foldl_update_trade_stats_max_drawdown (pnls : List ℚ) :
    ∀ s : DailyStats, s.max_drawdown ≤ s.total_pnl →
      (pnls.foldl update_trade_stats s).max_drawdown
        = (cumulativeSums s.total_pnl pnls).foldl min s.max_drawdown := by
  induction pnls with
  | nil => intro s _; rfl
  | cons p rest ih =>
    intro s hs
    rw [List.foldl_cons, cumulativeSums, List.foldl_cons]
    have htot : (update_trade_stats s p).total_pnl = s.total_pnl + p :=
      update_trade_stats_total_pnl s p
    by_cases hp : p < 0
    · have hmd : (update_trade_stats s p).max_drawdown
          = min s.max_drawdown (s.total_pnl + p) := by
        rw [update_trade_stats_max_drawdown, if_pos hp]
      have hinv : (update_trade_stats s p).max_drawdown
          ≤ (update_trade_stats s p).total_pnl := by
        rw [hmd, htot]
        exact min_le_right _ _
      rw [ih _ hinv, htot, hmd]
    · have hmd : (update_trade_stats s p).max_drawdown = s.max_drawdown := by
        rw [update_trade_stats_max_drawdown, if_neg hp]
      have hle : s.max_drawdown ≤ s.total_pnl + p :=
        le_add_of_le_of_nonneg hs (le_of_not_lt hp)
      have hinv : (update_trade_stats s p).max_drawdown
          ≤ (update_trade_stats s p).total_pnl := by
        rw [hmd, htot]
        exact hle
      rw [ih _ hinv, htot, hmd, min_eq_left hle]

/-- C5: after any sequence of `update_trade_stats` calls since the last
reset, `max_drawdown` is the minimum of `0` and all cumulative partial sums
of the recorded pnls — the most negative running `total_pnl` ever observed,
a running minimum rather than a peak-to-trough measure. -/
theorem max_drawdown_is_running_min (now : ℚ) (pnls : List ℚ) :
    (record_trades now pnls).max_drawdown
      = (cumulativeSums 0 pnls).foldl min 0 := by
  have h := foldl_update_trade_stats_max_drawdown pnls (init_daily_stats now)
    (le_refl 0)
  simpa [record_trades, init_daily_stats] using h

lemma foldl_update_trade_stats_total_pnl (pnls : List ℚ) :
    ∀ s : DailyStats, (pnls.foldl update_trade_stats s).total_pnl
      = s.total_pnl + pnls.sum := by
  induction pnls with
  | nil => intro s; simp
  | cons p rest ih =>
    intro s
    rw [List.foldl_cons, ih, update_trade_stats_total_pnl, List.sum_cons]
    ring

lemma foldl_update_trade_stats_counts (pnls : List ℚ) :
    ∀ s : DailyStats,
      (pnls.foldl update_trade_stats s).total_trades
        = s.total_trades + pnls.length ∧
      (pnls.foldl update_trade_stats s).winning_trades
          + (pnls.foldl update_trade_stats s).losing_trades
        = s.winning_trades + s.losing_trades + pnls.length := by
  induction pnls with
  | nil => intro s; simp
  | cons p rest ih =>
    intro s
    obtain ⟨h1, h2⟩ := ih (update_trade_stats s p)
    constructor
    · rw [List.foldl_cons, h1, update_trade_stats_total_trades,
        List.length_cons]
      omega
    · rw [List.foldl_cons, h2, update_trade_stats_winning,
        update_trade_stats_losing, List.length_cons]
      by_cases hp : p > 0 <;> simp [hp] <;> omega

/-- C7: each `update_trade_stats` call increments `total_trades`, increments
`winning_trades` when `pnl > 0` and `losing_trades` otherwise, and adds the
pnl to `total_pnl` (a total function — it never fails or rejects input);
consequently, after any sequence of calls since the last reset,
`total_trades = winning_trades + losing_trades` and `total_pnl` is the sum
of all recorded pnls. -/
theorem update_trade_stats_invariants (now : ℚ) (pnls : List ℚ)
    (s : DailyStats) (pnl : ℚ) :
    (record_trades now pnls).total_trades
      = (record_trades now pnls).winning_trades
        + (record_trades now pnls).losing_trades ∧
    (record_trades now pnls).total_pnl = pnls.sum ∧
    (update_trade_stats s pnl).total_trades = s.total_trades + 1 ∧
    (update_trade_stats s pnl).winning_trades
      = s.winning_trades + (if pnl > 0 then 1 else 0) ∧
    (update_trade_stats s pnl).losing_trades
      = s.losing_trades + (if pnl > 0 then 0 else 1) ∧
    (update_trade_stats s pnl).total_pnl = s.total_pnl + pnl := by
  obtain ⟨h1, h2⟩ := foldl_update_trade_stats_counts pnls (init_daily_stats now)
  refine ⟨?_, ?_, update_trade_stats_total_trades s pnl,
    update_trade_stats_winning s pnl, update_trade_stats_losing s pnl,
    update_trade_stats_total_pnl s pnl⟩
  · rw [record_trades, h1, h2]
    simp [init_daily_stats]
  · rw [record_trades, foldl_update_trade_stats_total_pnl]
    simp [init_daily_stats]

/-- C3: under a valid configuration (`account_size > 0`,
`0 < risk_per_trade ≤ 100`, `max_position_size > 0`) and `entry_price > 0`,
`calculate_position_size` returns `0` exactly when the price gap is zero
(in particular on `(p, p)` for every `p`), otherwise
`min(risk_amount / risk_per_unit, max_position_size / entry_price)`; and for
`entry_price > stop_loss ≥ 0` the result is non-negative and bounded by
`max_position_size / entry_price`. -/
theorem calculate_position_size_spec (cfg : RiskConfig) (entry stop : ℚ)
    (hacct : 0 < cfg.account_size) (hrisk0 : 0 < cfg.risk_per_trade)
    (hrisk1 : cfg.risk_per_trade ≤ 100) (hmax : 0 < cfg.max_position_size)
    (hentry : 0 < entry) :
    (∀ p : ℚ, calculate_position_size cfg p p = 0) ∧
    (|entry - stop| = 0 → calculate_position_size cfg entry stop = 0) ∧
    (|entry - stop| ≠ 0 →
      calculate_position_size cfg entry stop
        = min (cfg.account_size * (cfg.risk_per_trade / 100) / |entry - stop|)
            (cfg.max_position_size / entry)) ∧
    (0 ≤ stop → stop < entry →
      0 ≤ calculate_position_size cfg entry stop ∧
      calculate_position_size cfg entry stop
        ≤ cfg.max_position_size / entry) := by
  have hent0 : ¬entry = 0 := ne_of_gt hentry
  refine ⟨?_, ?_, ?_, ?_⟩
  · intro p
    simp [calculate_position_size]
  · intro h
    simp [calculate_position_size, h]
  · intro h
    simp only [calculate_position_size]
    rw [if_neg h, if_neg hent0]
  · intro hstop hlt
    have habs : |entry - stop| = entry - stop := abs_of_pos (by linarith)
    have hgap : (0 : ℚ) < |entry - stop| := by rw [habs]; linarith
    simp only [calculate_position_size]
    rw [if_neg (ne_of_gt hgap), if_neg hent0]
    constructor
    · apply le_min
      · apply div_nonneg _ hgap.le
        positivity
      · positivity
    · exact min_le_right _ _

/-- C3 witness: the end-to-end sizing scenario
`account_size = 1000`, `risk_per_trade = 1`, `max_position_size = 200`,
entry `100`, stop `95` gives `min(10/5, 200/100) = 2`, which is
non-negative and equal to the notional cap `200/100`. -/
theorem calculate_position_size_spec_witness :
    0 ≤ calculate_position_size ⟨1000, 1, 200⟩ 100 95 ∧
    calculate_position_size ⟨1000, 1, 200⟩ 100 95 ≤ 200 / 100 := by
  have h := (calculate_position_size_spec ⟨1000, 1, 200⟩ 100 95
    (by norm_num) (by norm_num) (by norm_num) (by norm_num) (by norm_num)).2.2.2
    (by norm_num) (by norm_num)
  exact h

/-- C8: when every timestamp already in the store precedes the clock reading
`now` (the clock only moves forward), `open_position` returns an id that is
distinct from every id present, and the new store is the old one with a
single OPEN record appended — no existing record is overwritten or modified.
This holds for repeated opens of the same token, which differ in the
timestamp component. -/
theorem open_position_fresh (store : Store) (token : String)
    (entry amount : ℚ) (sl tp : Option ℚ) (now : ℚ)
    (hclock : ∀ k ∈ store.map Prod.fst, k.2 < now) :
    (open_position store token entry amount sl tp now).2 ∉ store.map Prod.fst ∧
    (∃ newpos : Position, newpos.status = "open" ∧ newpos.token = token ∧
      newpos.entry_price = entry ∧ newpos.amount = amount ∧
      newpos.stop_loss = sl ∧ newpos.take_profit = tp ∧
      (open_position store token entry amount sl tp now).1
        = store ++ [((open_position store token entry amount sl tp now).2,
            newpos)]) ∧
    (∀ k, k ≠ (open_position store token entry amount sl tp now).2 →
      dictLookup (open_position store token entry amount sl tp now).1 k
        = dictLookup store k) := by
  have hfresh : ((token, now) : PosId) ∉ store.map Prod.fst := by
    intro hmem
    exact absurd (hclock _ hmem) (lt_irrefl now)
  refine ⟨hfresh, ?_, ?_⟩
  · refine ⟨openRecord token entry amount sl tp now,
      rfl, rfl, rfl, rfl, rfl, rfl, ?_⟩
    exact dictInsert_of_not_mem store _ _ hfresh
  · intro k hk
    exact dictLookup_dictInsert_ne store _ k _ (fun h => hk h.symm)

/-- C8 witness: a second open of the same token at a later clock reading
gets a fresh id. -/
theorem open_position_fresh_witness :
    (open_position ((open_position [] "a" 5 2 none none 0).1)
        "a" 5 2 none none 1).2
      ∉ ((open_position [] "a" 5 2 none none 0).1).map Prod.fst := by
  refine (open_position_fresh _ "a" 5 2 none none 1 ?_).1
  intro k hk
  simp only [open_position, dictInsert, List.map_cons, List.map_nil,
    List.mem_singleton] at hk
  rw [hk]
  norm_num

/-- C9 counterexample: with 1 winning trade out of 3, `get_risk_metrics`
reports `win_rate = 33.33`, not `winning_trades / total_trades × 100 =
100/3` — the source rounds the rate to two decimal places. -/
theorem win_rate_is_rounded :
    (get_risk_metrics ⟨1000, 1, 200⟩ (record_trades 0 [5, -1, -1])).win_rate
      = 3333/100 ∧
    (3333/100 : ℚ) ≠ ((1 : ℚ) / 3) * 100 := by
  constructor
  · simp only [get_risk_metrics, record_trades, init_daily_stats,
      update_trade_stats, List.foldl]
    norm_num [round2, roundHalfEven]
  · norm_num

/-- C9 (amended): `get_risk_metrics` reports
`win_rate = round(winning_trades / total_trades × 100, 2)`, with the raw
rate defined as `0` when `total_trades = 0`; and immediately after
`reset_daily_stats` it reports `total_trades = 0` and `win_rate = 0`. -/
theorem get_risk_metrics_spec (cfg : RiskConfig) (s : DailyStats) (now : ℚ) :
    (get_risk_metrics cfg s).win_rate
      = round2 (if s.total_trades > 0
          then ((s.winning_trades : ℚ) / (s.total_trades : ℚ)) * 100
          else 0) ∧
    (s.total_trades = 0 → (get_risk_metrics cfg s).win_rate = 0) ∧
    (get_risk_metrics cfg (reset_daily_stats now)).total_trades = 0 ∧
    (get_risk_metrics cfg (reset_daily_stats now)).win_rate = 0 := by
  refine ⟨rfl, ?_, rfl, ?_⟩
  · intro h
    simp only [get_risk_metrics, h]
    norm_num [round2, roundHalfEven]
  · simp only [get_risk_metrics, reset_daily_stats, init_daily_stats]
    norm_num [round2, roundHalfEven]

/-- C9 witness: on a freshly initialised stats record there are no trades
and the reported win rate is `0`. -/
theorem get_risk_metrics_spec_witness :
    (get_risk_metrics ⟨1000, 1, 200⟩ (init_daily_stats 0)).win_rate = 0 ∧
    (get_risk_metrics ⟨1000, 1, 200⟩ (reset_daily_stats 0)).total_trades = 0 := by
  have h := get_risk_metrics_spec ⟨1000, 1, 200⟩ (init_daily_stats 0) 0
  exact ⟨h.2.1 rfl, h.2.2.1⟩

/-- C4: evaluating `TradingBot.manage_positions` on a store holding a single
position opened by `open_position` raises `KeyError` for every price feed.
The loop body reads `position["token_address"]`, but `open_position` stores
the token under the key `"token"`, so the very first active position aborts
the whole sweep before any price fetch — the per-position skip-and-continue
policy claimed by the spec (and visible in the dead
`if not current_price: continue` branch) is unreachable, and the failure
propagates out of the cycle call. -/
theorem manage_positions_token_address_keyerror
    (priceOf : String → Option ℚ) (now : ℚ) :
    manage_positions priceOf now (open_position [] "tok" 1 1 none none 0).1
      = Except.error "KeyError: token_address" :=
  rfl

end Lenoxbot
